import Mathlib

/-!
Verification of the gget downloader (`main.go`) against its specification.

The file shallowly embeds `downloadFile` from `main.go`: the environment
(URL parse result, filesystem probes, the user's answer to the overwrite
prompt, the HTTP transport, the response status and content length, and the
sequence of `resp.Body.Read` results) is a value of type `Env`, and
`downloadFile` is a pure function from that environment to an `Outcome`
recording the returned path, the returned error, the full sequence of
callback invocations, and which side effects were attempted.

Float arithmetic (`float64` in Go) is modelled exactly by `FloatVal`:
finite values are exact rationals (rounding is not modelled; it never
turns a finite value into an infinity or NaN here), and the IEEE-754
special cases of division are modelled faithfully.  Signed zero is ignored.

The Go standard library functions `path/filepath.Base`, `Clean` and `Join`
(Unix rules, no volume names) are translated below as `goBase`, `goClean`
and `goJoin`; `goClean` is Go's lazybuf algorithm reformulated over the
list of `/`-separated components, which is the same computation.
-/

namespace GGet

/-- Model of an IEEE-754 double (`float64`): a finite value carried as an
exact rational, an infinity, or NaN.  Signed zero is not modelled. -/
inductive FloatVal where
  | finite (q : ℚ)
  | posInf
  | negInf
  | nan
  deriving DecidableEq, Repr

/-- IEEE-754 division on `FloatVal`: finite / 0 gives an infinity of the
numerator's sign (NaN for 0 / 0), finite / infinity gives 0, and NaN
propagates.  Finite / finite is exact rational division. -/
def fdiv : FloatVal → FloatVal → FloatVal
  | FloatVal.nan, _ => FloatVal.nan
  | _, FloatVal.nan => FloatVal.nan
  | FloatVal.finite a, FloatVal.finite b =>
      if b = 0 then
        if 0 < a then FloatVal.posInf
        else if a < 0 then FloatVal.negInf
        else FloatVal.nan
      else FloatVal.finite (a / b)
  | FloatVal.finite _, FloatVal.posInf => FloatVal.finite 0
  | FloatVal.finite _, FloatVal.negInf => FloatVal.finite 0
  | FloatVal.posInf, FloatVal.finite b => if b < 0 then FloatVal.negInf else FloatVal.posInf
  | FloatVal.negInf, FloatVal.finite b => if b < 0 then FloatVal.posInf else FloatVal.negInf
  | FloatVal.posInf, FloatVal.posInf => FloatVal.nan
  | FloatVal.posInf, FloatVal.negInf => FloatVal.nan
  | FloatVal.negInf, FloatVal.posInf => FloatVal.nan
  | FloatVal.negInf, FloatVal.negInf => FloatVal.nan

/-- Result of `url.Parse` restricted to the fields `downloadFile` reads:
`u.Scheme` and `u.Path`. -/
structure URL where
  scheme : String
  path : String
  deriving DecidableEq, Repr

/-- Splits a character list on the path separator, keeping empty
components, exactly as the separators split the string. -/
def splitSep : List Char → List (List Char)
  | [] => [[]]
  | c :: rest =>
      let r := splitSep rest
      if c = '/' then [] :: r
      else
        match r with
        | [] => [[c]]
        | w :: ws => (c :: w) :: ws

/-- Core of Go's `filepath.Clean` (Unix): walk the `/`-separated
components, dropping empty and `.` components, resolving `..` against the
output stack (a `..` pops a previous real component; at the root it is
dropped; in a relative path with nothing to pop it is kept).  `acc` is the
output stack, most recent component first.  This is Go's lazybuf loop
expressed per component. -/
def cleanComps (rooted : Bool) : List (List Char) → List (List Char) → List (List Char)
  | [], acc => acc
  | c :: rest, acc =>
      if c = [] ∨ c = ['.'] then cleanComps rooted rest acc
      else if c = ['.', '.'] then
        match acc with
        | [] => cleanComps rooted rest (if rooted then [] else [['.', '.']])
        | a :: accTail =>
            if a = ['.', '.'] then cleanComps rooted rest (['.', '.'] :: a :: accTail)
            else cleanComps rooted rest accTail
      else cleanComps rooted rest (c :: acc)

/-- Joins components with the path separator. -/
def joinComps : List (List Char) → List Char
  | [] => []
  | [w] => w
  | w :: ws => w ++ '/' :: joinComps ws

/-- Go's `path/filepath.Clean` for Unix paths: `Clean("") = "."`, a rooted
result keeps its leading `/` (and is `"/"` when nothing remains), a
relative result with nothing remaining is `"."`. -/
def goClean (path : String) : String :=
  if path = "" then "."
  else
    let cs := path.toList
    let rooted := cs.head? == some '/'
    let comps := (cleanComps rooted (splitSep cs) []).reverse
    let joined := joinComps comps
    if rooted then
      if joined = [] then "/" else String.mk ('/' :: joined)
    else
      if joined = [] then "." else String.mk joined

/-- Go's `path/filepath.Base` for Unix paths: `Base("") = "."`; trailing
separators are stripped; if the path consists entirely of separators the
result is `"/"`; otherwise the last component. -/
def goBase (path : String) : String :=
  if path = "" then "."
  else
    match ((splitSep path.toList).filter (fun w => !w.isEmpty)).getLast? with
    | some w => String.mk w
    | none => "/"

/-- Go's `path/filepath.Join` on two elements: empty elements are dropped,
the rest are joined with `/` and cleaned. -/
def goJoin (dir name : String) : String :=
  if dir = "" then
    if name = "" then "" else goClean name
  else goClean (dir ++ "/" ++ name)

/-- Classification of the error returned by one `resp.Body.Read` call:
`nil`, `io.EOF`, or any other error. -/
inductive ReadErr where
  | ok
  | eof
  | other
  deriving DecidableEq, Repr

/-- One iteration of the copy loop as seen from the environment: the read
returns `n` bytes and an error classification; if the loop then attempts
`destFile.Write` (only when `0 < n`), `writeRes = none` means the write
succeeded (all `n` bytes written — Go's `Write` returns a non-nil error
whenever it writes fewer than `n`), and `writeRes = some k` means the
write failed after writing `k` bytes.  `elapsedSec` is
`int64(time.Since(timeStart).Seconds())` at this iteration, i.e. the
elapsed wall-clock seconds truncated to a whole number. -/
structure ReadStep where
  n : Nat
  e : ReadErr
  writeRes : Option Nat
  elapsedSec : Int
  deriving DecidableEq, Repr

/-- The mutable state of the copy loop: `bytesRead` (`int64`) and the three
`float64` variables `progress`, `speed`, `secondsRemaining`. -/
structure TState where
  bytesRead : Int
  progress : FloatVal
  speed : FloatVal
  secondsRemaining : FloatVal
  deriving DecidableEq, Repr

/-- Initial loop state: `bytesRead := int64(0)`, the three floats `0.0`. -/
def TState.init : TState :=
  ⟨0, FloatVal.finite 0, FloatVal.finite 0, FloatVal.finite 0⟩

/-- One progress update, exactly the assignments after a successful write
of `n` bytes in `main.go`:
`bytesRead += int64(n)`;
`progress = float64(bytesRead) / float64(bytesTotal)`;
`speed = float64(bytesRead) / float64(glog.Max(1, int64(time.Since(timeStart).Seconds())))`;
`secondsRemaining = float64(bytesTotal-bytesRead) / speed`. -/
def stepState (bytesTotal : Int) (st : TState) (n : Nat) (elapsedSec : Int) : TState :=
  let bytesRead := st.bytesRead + (n : Int)
  let progress := fdiv (FloatVal.finite (bytesRead : ℚ)) (FloatVal.finite (bytesTotal : ℚ))
  let speed := fdiv (FloatVal.finite (bytesRead : ℚ)) (FloatVal.finite ((max 1 elapsedSec : Int) : ℚ))
  let secondsRemaining := fdiv (FloatVal.finite ((bytesTotal - bytesRead : Int) : ℚ)) speed
  ⟨bytesRead, progress, speed, secondsRemaining⟩

/-- The argument tuple passed to each callback (minus the error argument of
the failure callback). -/
structure ProgState where
  fileName : String
  bytesTotal : Int
  bytesRead : Int
  progress : FloatVal
  speed : FloatVal
  secondsRemaining : FloatVal
  deriving DecidableEq, Repr

/-- Packs a loop state into a callback argument tuple. -/
def mkProg (fileName : String) (bytesTotal : Int) (st : TState) : ProgState :=
  ⟨fileName, bytesTotal, st.bytesRead, st.progress, st.speed, st.secondsRemaining⟩

/-- The errors `downloadFile` can return, one constructor per `return`
site: the `url.Parse` error, the `"not a valid URL"` error, the
`"Download cancelled!"` error, the `os.RemoveAll` error, the `http.Get`
error, the bad-status error (carrying `resp.StatusCode`), the `os.Create`
error, a non-EOF `resp.Body.Read` error, and a `destFile.Write` error. -/
inductive Err where
  | parseError
  | notAValidURL
  | downloadCancelled
  | removeFailed
  | transportError
  | badStatus (code : Nat)
  | createFailed
  | readFailed
  | writeFailed
  deriving DecidableEq, Repr

/-- One callback invocation: `onProgress`, `onProgressSuccess`, or
`onProgressError` (the latter also records which error was passed). -/
inductive Ev where
  | progress (s : ProgState)
  | success (s : ProgState)
  | failure (s : ProgState) (e : Err)
  deriving DecidableEq, Repr

/-- Result of the copy loop: the callback invocations it performed, the
number of bytes written to the destination file, the error it returned
(`none` meaning it fell through to the success path), and the final loop
state. -/
structure LoopRes where
  evs : List Ev
  bytes : Nat
  err : Option Err
  fin : TState
  deriving DecidableEq, Repr

/-- The chunked copy loop of `downloadFile`, one `ReadStep` per iteration.
Per iteration, mirroring `main.go` exactly: a non-EOF read error invokes
`onProgressError` with the current (stale) state and returns; otherwise if
`0 < n` the chunk is written (a write failure invokes `onProgressError`
with the stale state and returns, the `k` bytes the failing write managed
to write still land in the file), the state is updated by `stepState` and
`onProgress` is invoked; finally `err == io.EOF` breaks the loop.  An
exhausted step list also ends the loop: a finite step list models one
terminating execution of the unbounded Go loop. -/
def copyLoop (dstName : String) (bytesTotal : Int) : List ReadStep → TState → LoopRes
  | [], st => ⟨[], 0, none, st⟩
  | r :: rest, st =>
      if r.e = ReadErr.other then
        ⟨[Ev.failure (mkProg dstName bytesTotal st) Err.readFailed], 0, some Err.readFailed, st⟩
      else if 0 < r.n then
        match r.writeRes with
        | some k =>
            ⟨[Ev.failure (mkProg dstName bytesTotal st) Err.writeFailed], k,
              some Err.writeFailed, st⟩
        | none =>
            let st2 := stepState bytesTotal st r.n r.elapsedSec
            if r.e = ReadErr.eof then
              ⟨[Ev.progress (mkProg dstName bytesTotal st2)], r.n, none, st2⟩
            else
              let res := copyLoop dstName bytesTotal rest st2
              ⟨Ev.progress (mkProg dstName bytesTotal st2) :: res.evs, r.n + res.bytes,
                res.err, res.fin⟩
      else if r.e = ReadErr.eof then ⟨[], 0, none, st⟩
      else copyLoop dstName bytesTotal rest st

/-- The environment of one `downloadFile` invocation: the `url.Parse`
result (`none` for a parse error), whether `os.Stat(dstPath)` succeeds,
the user's answer to the overwrite prompt, whether `os.RemoveAll`
succeeds, whether `http.Get` succeeds at the transport level,
`resp.StatusCode`, `resp.ContentLength` (`-1` when unknown), whether
`os.Create` succeeds, and the sequence of `resp.Body.Read` results. -/
structure Env where
  parsed : Option URL
  dstPathExists : Bool
  askAnswer : Bool
  removeOk : Bool
  httpOk : Bool
  statusCode : Nat
  contentLength : Int
  createOk : Bool
  reads : List ReadStep
  deriving DecidableEq, Repr

/-- Everything observable about one `downloadFile` invocation: the
returned `(string, error)` pair, the callback invocations in order, and
which side-effecting operations were attempted: `httpRequested`
(`http.Get` was called), `statAttempted` (`os.Stat` on the destination was
called), `removeAttempted` (`os.RemoveAll` was called), `createAttempted`
(`os.Create` was called), `fileCreated` (`os.Create` succeeded) and
`fileBytes` (bytes written into the destination file). -/
structure Outcome where
  path : String
  error : Option Err
  events : List Ev
  httpRequested : Bool
  statAttempted : Bool
  removeAttempted : Bool
  createAttempted : Bool
  fileCreated : Bool
  fileBytes : Nat
  deriving DecidableEq, Repr

/-- Shallow embedding of `downloadFile` from `main.go`, one branch per
early `return`: parse error (returns `""`), empty scheme (returns `""`),
pre-existing destination declined (`"Download cancelled!"`),
`os.RemoveAll` failure, `http.Get` failure, status code other than 200,
`os.Create` failure, then the copy loop; on loop error the loop's events
are the only callbacks, otherwise `onProgressSuccess` is invoked once with
`dstPath` (not `dstName`) as the file name, exactly as in the source. -/
def downloadFile (env : Env) (dstDir : String) : Outcome :=
  match env.parsed with
  | none => ⟨"", some Err.parseError, [], false, false, false, false, false, 0⟩
  | some u =>
      if u.scheme == "" then
        ⟨"", some Err.notAValidURL, [], false, false, false, false, false, 0⟩
      else
        let dstName := goBase u.path
        let dstPath := goJoin dstDir dstName
        if env.dstPathExists && !env.askAnswer then
          ⟨dstPath, some Err.downloadCancelled, [], false, true, false, false, false, 0⟩
        else if env.dstPathExists && !env.removeOk then
          ⟨dstPath, some Err.removeFailed, [], false, true, true, false, false, 0⟩
        else if !env.httpOk then
          ⟨dstPath, some Err.transportError, [], true, true, env.dstPathExists, false, false, 0⟩
        else if !(env.statusCode == 200) then
          ⟨dstPath, some (Err.badStatus env.statusCode), [], true, true, env.dstPathExists,
            false, false, 0⟩
        else if !env.createOk then
          ⟨dstPath, some Err.createFailed, [], true, true, env.dstPathExists, true, false, 0⟩
        else
          let res := copyLoop dstName env.contentLength env.reads TState.init
          match res.err with
          | some e =>
              ⟨dstPath, some e, res.evs, true, true, env.dstPathExists, true, true, res.bytes⟩
          | none =>
              ⟨dstPath, none,
                res.evs ++ [Ev.success (mkProg dstPath env.contentLength res.fin)],
                true, true, env.dstPathExists, true, true, res.bytes⟩

/-- A terminal callback: `onProgressSuccess` or `onProgressError`. -/
def Ev.isTerminal : Ev → Bool
  | Ev.progress _ => false
  | Ev.success _ => true
  | Ev.failure _ _ => true

/-- The terminal callback invocations of an outcome, in order. -/
def terminalEvents (o : Outcome) : List Ev :=
  o.events.filter Ev.isTerminal

/-- The argument tuples of the `onProgress` invocations, in order. -/
def progressStates (evs : List Ev) : List ProgState :=
  evs.filterMap fun e =>
    match e with
    | Ev.progress s => some s
    | _ => none

/-- The `bytesRead` values passed to successive `onProgress` calls. -/
def progressReads (evs : List Ev) : List Int :=
  (progressStates evs).map ProgState.bytesRead

/-- Total number of bytes delivered through `onProgress`: since each call
carries the cumulative `bytesRead`, this is the last such value (0 when
`onProgress` was never called). -/
def deliveredTotal (evs : List Ev) : Int :=
  (progressReads evs).getLastD 0

/-- Total number of bytes yielded by all reads of a trace. -/
def sumReadSizes (reads : List ReadStep) : Nat :=
  (reads.map ReadStep.n).sum

/-- The chunks the loop fully processes before it stops: for each read
with `0 < n` and a successful write that the loop reaches, its size and
its elapsed-seconds sample.  These are exactly the iterations that invoke
`onProgress`. -/
def processedChunks : List ReadStep → List (Nat × Int)
  | [] => []
  | r :: rest =>
      if r.e = ReadErr.other then []
      else if 0 < r.n then
        match r.writeRes with
        | some _ => []
        | none =>
            if r.e = ReadErr.eof then [(r.n, r.elapsedSec)]
            else (r.n, r.elapsedSec) :: processedChunks rest
      else if r.e = ReadErr.eof then [] else processedChunks rest

/-- The error with which the copy loop stops on a given read trace
(`none` when it reaches the success path). -/
def loopErr : List ReadStep → Option Err
  | [] => none
  | r :: rest =>
      if r.e = ReadErr.other then some Err.readFailed
      else if 0 < r.n then
        match r.writeRes with
        | some _ => some Err.writeFailed
        | none => if r.e = ReadErr.eof then none else loopErr rest
      else if r.e = ReadErr.eof then none else loopErr rest

/-- Bytes written by the failing write that stops the loop, if any
(0 when the loop stops for any other reason). -/
def failedWriteBytes : List ReadStep → Nat
  | [] => 0
  | r :: rest =>
      if r.e = ReadErr.other then 0
      else if 0 < r.n then
        match r.writeRes with
        | some k => k
        | none => if r.e = ReadErr.eof then 0 else failedWriteBytes rest
      else if r.e = ReadErr.eof then 0 else failedWriteBytes rest

/-- The successive loop states after each processed chunk. -/
def runChunks (bytesTotal : Int) : TState → List (Nat × Int) → List TState
  | _, [] => []
  | st, c :: rest =>
      let st2 := stepState bytesTotal st c.1 c.2
      st2 :: runChunks bytesTotal st2 rest

/-- Cumulative sums: `cumSums s [n1, n2, ...] = [s + n1, s + n1 + n2, ...]`. -/
def cumSums (s : Int) : List Nat → List Int
  | [] => []
  | n :: rest => (s + (n : Int)) :: cumSums (s + (n : Int)) rest

/-- The progress-state sequence as the spec describes it, one state per
successfully written chunk, unconditionally: cumulative `bytesRead`;
`speed` is cumulative `bytesRead` divided by the elapsed whole seconds
floored to a minimum of 1; `secondsRemaining` is
`(bytesTotal - bytesRead) / speed`. -/
def specStates (bytesTotal : Int) (bytesReadSoFar : Int) : List (Nat × Int) → List TState
  | [] => []
  | c :: rest =>
      let br := bytesReadSoFar + (c.1 : Int)
      let pr := fdiv (FloatVal.finite (br : ℚ)) (FloatVal.finite (bytesTotal : ℚ))
      let sp := fdiv (FloatVal.finite (br : ℚ)) (FloatVal.finite ((max 1 c.2 : Int) : ℚ))
      let sr := fdiv (FloatVal.finite ((bytesTotal - br : Int) : ℚ)) sp
      ⟨br, pr, sp, sr⟩ :: specStates bytesTotal br rest

/-- The outcome of `downloadFile` once control reaches the copy loop
(step 5): the final branch of `downloadFile` factored out for reuse in
proofs. -/
def loopOutcome (u : URL) (dstDir : String) (env : Env) : Outcome :=
  let dstName := goBase u.path
  let dstPath := goJoin dstDir dstName
  let res := copyLoop dstName env.contentLength env.reads TState.init
  match res.err with
  | some e => ⟨dstPath, some e, res.evs, true, true, env.dstPathExists, true, true, res.bytes⟩
  | none =>
      ⟨dstPath, none, res.evs ++ [Ev.success (mkProg dstPath env.contentLength res.fin)],
        true, true, env.dstPathExists, true, true, res.bytes⟩

/-- A run whose `http.Get` fails at the transport level (step 3 of the
flow); nothing was read. -/
def transportFailEnv : Env :=
  ⟨some ⟨"https", "/a"⟩, false, false, true, false, 200, 10, true, []⟩

/-- A run in which the destination file exists and the user declines the
overwrite prompt. -/
def declinedEnv : Env :=
  ⟨some ⟨"https", "/a"⟩, true, false, true, true, 200, 10, true, []⟩

/-- A clean two-chunk download of 10 announced bytes. -/
def twoChunkEnv : Env :=
  ⟨some ⟨"https", "/a.bin"⟩, false, false, true, true, 200, 10,
    true, [⟨4, ReadErr.ok, none, 0⟩, ⟨6, ReadErr.eof, none, 1⟩]⟩

/-- A run whose only write fails after writing 1 of its 2 bytes (Go's
`File.Write` may write only part of the buffer and then report the error; the
source discards the written count). -/
def shortWriteEnv : Env :=
  ⟨some ⟨"https", "/a.bin"⟩, false, false, true, true, 200, 2, true,
    [⟨2, ReadErr.ok, some 1, 0⟩]⟩

/-- A clean one-chunk download of 7 bytes. -/
def cleanWritesEnv : Env :=
  ⟨some ⟨"https", "/b.bin"⟩, false, false, true, true, 200, 7, true,
    [⟨7, ReadErr.ok, none, 0⟩, ⟨0, ReadErr.eof, none, 1⟩]⟩

/-- A response with status 404. -/
def notFoundEnv : Env :=
  ⟨some ⟨"https", "/files/x.bin"⟩, false, false, true, true, 404, 10, true, []⟩

/-- A URL with an empty path basename (`url.Parse` of
`https://example.com/` yields `Path = "/"`), with the resolved destination
(the destination directory itself) existing and the user confirming the
overwrite; the body is 3 bytes. -/
def emptyBaseEnv : Env :=
  ⟨some ⟨"https", "/"⟩, true, true, true, true, 200, 3, true, [⟨3, ReadErr.eof, none, 0⟩]⟩

/-- A response announcing `Content-Length: 0` whose body nevertheless
yields 5 bytes. -/
def zeroLengthEnv : Env :=
  ⟨some ⟨"https", "/f.bin"⟩, false, false, true, true, 200, 0, true,
    [⟨5, ReadErr.eof, none, 0⟩]⟩

/-- A chunked response: `resp.ContentLength = -1` (unknown), body of
5 bytes. -/
def unknownLengthEnv : Env :=
  ⟨some ⟨"https", "/f.bin"⟩, false, false, true, true, 200, -1, true,
    [⟨5, ReadErr.eof, none, 0⟩]⟩

/-- A source string that `url.Parse` rejects. -/
def unparseableEnv : Env :=
  ⟨none, false, false, true, true, 200, 10, true, []⟩

/-- A three-read run with distinct elapsed-second samples. -/
def steadyEnv : Env :=
  ⟨some ⟨"https", "/c.bin"⟩, false, false, true, true, 200, 8, true,
    [⟨3, ReadErr.ok, none, 0⟩, ⟨5, ReadErr.ok, none, 2⟩, ⟨0, ReadErr.eof, none, 2⟩]⟩

/-- Master characterization of the copy loop: its `onProgress` events are
exactly the states after each processed chunk, its terminal event (if any)
carries the state after the last processed chunk, its byte count is the
sum of the processed chunk sizes plus whatever a failing write managed to
write, its error is `loopErr`, and its final state is the state after the
last processed chunk. -/
theorem copyLoop_eq (d : String) (bt : Int) :
    ∀ (reads : List ReadStep) (st : TState),
      copyLoop d bt reads st =
        ⟨(runChunks bt st (processedChunks reads)).map (fun s => Ev.progress (mkProg d bt s))
            ++ (match loopErr reads with
                | none => []
                | some e =>
                    [Ev.failure
                      (mkProg d bt ((runChunks bt st (processedChunks reads)).getLastD st)) e]),
          ((processedChunks reads).map Prod.fst).sum + failedWriteBytes reads,
          loopErr reads,
          (runChunks bt st (processedChunks reads)).getLastD st⟩ := by
  intro reads
  induction reads with
  | nil =>
      intro st
      simp [copyLoop, processedChunks, loopErr, failedWriteBytes, runChunks]
  | cons r rest ih =>
      intro st
      by_cases h1 : r.e = ReadErr.other
      · simp [copyLoop, processedChunks, loopErr, failedWriteBytes, runChunks, h1]
      · by_cases h2 : 0 < r.n
        · cases hw : r.writeRes with
          | some k =>
              simp [copyLoop, processedChunks, loopErr, failedWriteBytes, runChunks,
                h1, h2, hw]
          | none =>
              by_cases h3 : r.e = ReadErr.eof
              · simp [copyLoop, processedChunks, loopErr, failedWriteBytes, runChunks,
                  h1, h2, h3, hw]
              · simp only [copyLoop, processedChunks, loopErr, failedWriteBytes, runChunks,
                  h1, h2, h3, hw, if_true, if_false, if_pos, if_neg, not_false_iff]
                rw [ih]
                simp only [List.map_cons, List.cons_append, List.getLastD_cons, List.sum_cons,
                  LoopRes.mk.injEq, true_and, and_true]
                omega
        · by_cases h3 : r.e = ReadErr.eof
          · simp [copyLoop, processedChunks, loopErr, failedWriteBytes, runChunks,
              h1, h2, h3]
          · simp only [copyLoop, processedChunks, loopErr, failedWriteBytes, runChunks,
              h1, h2, h3, if_true, if_false, if_neg, not_false_iff]
            exact ih st

/-- The `bytesRead` components of the states after each processed chunk
are the cumulative sums of the chunk sizes. -/
theorem runChunks_map_bytesRead (bt : Int) :
    ∀ (l : List (Nat × Int)) (st : TState),
      (runChunks bt st l).map TState.bytesRead = cumSums st.bytesRead (l.map Prod.fst) := by
  intro l
  induction l with
  | nil => intro st; simp [runChunks, cumSums]
  | cons c rest ih =>
      intro st
      simp only [runChunks, List.map_cons, cumSums]
      exact congrArg _ (ih (stepState bt st c.1 c.2))

/-- The last cumulative sum is the total. -/
theorem cumSums_getLastD :
    ∀ (l : List Nat) (s : Int), (cumSums s l).getLastD s = s + (l.sum : Int) := by
  intro l
  induction l with
  | nil => intro s; simp [cumSums]
  | cons n rest ih =>
      intro s
      simp only [cumSums, List.getLastD_cons, ih, List.sum_cons]
      push_cast
      ring

/-- Every cumulative sum lies between the start value and the start value
plus the total. -/
theorem cumSums_mem_bounds :
    ∀ (l : List Nat) (s x : Int), x ∈ cumSums s l → s ≤ x ∧ x ≤ s + (l.sum : Int) := by
  intro l
  induction l with
  | nil => intro s x hx; simp [cumSums] at hx
  | cons n rest ih =>
      intro s x hx
      simp only [cumSums, List.mem_cons] at hx
      rcases hx with h | h
      · subst h
        simp only [List.sum_cons]
        omega
      · have := ih (s + (n : Int)) x h
        simp only [List.sum_cons]
        omega

/-- Cumulative sums are non-decreasing. -/
theorem cumSums_chain :
    ∀ (l : List Nat) (s : Int), List.Chain' (fun a b => a ≤ b) (cumSums s l) := by
  intro l
  induction l with
  | nil => intro s; simp [cumSums]
  | cons n rest ih =>
      intro s
      simp only [cumSums]
      refine List.chain'_cons'.mpr ⟨?_, ih (s + (n : Int))⟩
      intro y hy
      have hmem : y ∈ cumSums (s + (n : Int)) rest := by
        cases hc : cumSums (s + (n : Int)) rest with
        | nil => simp [hc] at hy
        | cons a t => simp [hc] at hy; simp [hc, hy]
      exact (cumSums_mem_bounds rest (s + (n : Int)) y hmem).1

/-- The `bytesRead` of the final loop state is the start value plus the
total of the processed chunk sizes. -/
theorem runChunks_getLastD_bytesRead (bt : Int) :
    ∀ (l : List (Nat × Int)) (st : TState),
      ((runChunks bt st l).getLastD st).bytesRead
        = st.bytesRead + ((l.map Prod.fst).sum : Int) := by
  intro l
  induction l with
  | nil => intro st; simp [runChunks]
  | cons c rest ih =>
      intro st
      simp only [runChunks, List.getLastD_cons, ih, List.map_cons, List.sum_cons]
      have : (stepState bt st c.1 c.2).bytesRead = st.bytesRead + (c.1 : Int) := rfl
      rw [this]
      push_cast
      ring

/-- The loop states computed by the source coincide with the spec's
progress-state recurrence: the two definitions agree chunk by chunk. -/
theorem runChunks_eq_specStates (bt : Int) :
    ∀ (l : List (Nat × Int)) (st : TState),
      runChunks bt st l = specStates bt st.bytesRead l := by
  intro l
  induction l with
  | nil => intro st; simp [runChunks, specStates]
  | cons c rest ih =>
      intro st
      simp only [runChunks, specStates]
      refine congrArg₂ _ rfl ?_
      exact ih (stepState bt st c.1 c.2)

/-- The processed chunks are a sub-multiset of the reads: their total size
is at most the total size of all reads. -/
theorem processedChunks_sum_le :
    ∀ reads : List ReadStep, ((processedChunks reads).map Prod.fst).sum ≤ sumReadSizes reads := by
  intro reads
  induction reads with
  | nil => simp [processedChunks, sumReadSizes]
  | cons r rest ih =>
      simp only [processedChunks, sumReadSizes, List.map_cons, List.sum_cons]
      by_cases h1 : r.e = ReadErr.other
      · simp [h1]
      · simp only [h1, if_false]
        by_cases h2 : 0 < r.n
        · cases hw : r.writeRes with
          | some k => simp [h2, hw]
          | none =>
              by_cases h3 : r.e = ReadErr.eof
              · simp [h2, hw, h3]
              · simp only [h2, hw, h3, if_true, if_false]
                simp only [List.map_cons, List.sum_cons]
                have := ih
                simp only [sumReadSizes] at this
                omega
        · by_cases h3 : r.e = ReadErr.eof
          · simp [h2, h3]
          · simp only [h2, h3, if_false]
            have := ih
            simp only [sumReadSizes] at this
            omega

/-- If the loop does not stop on a write error, no failing write
contributed bytes. -/
theorem failedWriteBytes_eq_zero_of_ne :
    ∀ reads : List ReadStep,
      loopErr reads ≠ some Err.writeFailed → failedWriteBytes reads = 0 := by
  intro reads
  induction reads with
  | nil => intro _; rfl
  | cons r rest ih =>
      intro h
      simp only [loopErr] at h
      simp only [failedWriteBytes]
      by_cases h1 : r.e = ReadErr.other
      · simp [h1]
      · simp only [h1, if_false] at h ⊢
        by_cases h2 : 0 < r.n
        · cases hw : r.writeRes with
          | some k => simp [h2, hw] at h
          | none =>
              by_cases h3 : r.e = ReadErr.eof
              · simp [h2, hw, h3]
              · simp only [h2, hw, h3, if_true, if_false] at h ⊢
                exact ih h
        · by_cases h3 : r.e = ReadErr.eof
          · simp [h2, h3]
          · simp only [h2, h3, if_false] at h ⊢
            exact ih h

/-- If every failing write in the trace wrote nothing, no failing write
contributed bytes. -/
theorem failedWriteBytes_eq_zero_of_all :
    ∀ reads : List ReadStep,
      (∀ r ∈ reads, ∀ k, r.writeRes = some k → k = 0) → failedWriteBytes reads = 0 := by
  intro reads
  induction reads with
  | nil => intro _; rfl
  | cons r rest ih =>
      intro h
      simp only [failedWriteBytes]
      by_cases h1 : r.e = ReadErr.other
      · simp [h1]
      · simp only [h1, if_false]
        by_cases h2 : 0 < r.n
        · cases hw : r.writeRes with
          | some k =>
              simp only [h2, hw, if_true]
              exact h r (List.mem_cons_self r rest) k hw
          | none =>
              by_cases h3 : r.e = ReadErr.eof
              · simp [h2, hw, h3]
              · simp only [h2, hw, h3, if_true, if_false]
                exact ih fun x hx => h x (List.mem_cons_of_mem r hx)
        · by_cases h3 : r.e = ReadErr.eof
          · simp [h2, h3]
          · simp only [h2, h3, if_false]
            exact ih fun x hx => h x (List.mem_cons_of_mem r hx)

/-- When its five guards pass — the URL parses with a non-empty scheme,
the destination either does not exist or the user confirms and the removal
succeeds, the transport succeeds, the status is 200 and the file is
created — `downloadFile` runs the copy loop and returns `loopOutcome`. -/
theorem downloadFile_reaches (env : Env) (dstDir : String) (u : URL)
    (hp : env.parsed = some u) (hs : u.scheme ≠ "")
    (hex : env.dstPathExists = false ∨ (env.askAnswer = true ∧ env.removeOk = true))
    (hh : env.httpOk = true) (hst : env.statusCode = 200) (hc : env.createOk = true) :
    downloadFile env dstDir = loopOutcome u dstDir env := by
  unfold downloadFile loopOutcome
  rw [hp]
  have hs' : (u.scheme == "") = false := by
    simp [hs]
  have hex' : (env.dstPathExists && !env.askAnswer) = false := by
    rcases hex with h | ⟨h, _⟩ <;> simp [h]
  have hex2 : (env.dstPathExists && !env.removeOk) = false := by
    rcases hex with h | ⟨_, h⟩ <;> simp [h]
  simp [hs', hex', hex2, hh, hst, hc]

/-- Exhaustive enumeration of the outcomes of `downloadFile`: one disjunct
per early `return` of the source, plus the copy-loop branch. -/
theorem downloadFile_cases (env : Env) (dstDir : String) :
    downloadFile env dstDir
        = ⟨"", some Err.parseError, [], false, false, false, false, false, 0⟩
    ∨ (∃ u, env.parsed = some u ∧ downloadFile env dstDir
        = ⟨"", some Err.notAValidURL, [], false, false, false, false, false, 0⟩)
    ∨ (∃ u, env.parsed = some u ∧ downloadFile env dstDir
        = ⟨goJoin dstDir (goBase u.path), some Err.downloadCancelled, [],
            false, true, false, false, false, 0⟩)
    ∨ (∃ u, env.parsed = some u ∧ downloadFile env dstDir
        = ⟨goJoin dstDir (goBase u.path), some Err.removeFailed, [],
            false, true, true, false, false, 0⟩)
    ∨ (∃ u, env.parsed = some u ∧ downloadFile env dstDir
        = ⟨goJoin dstDir (goBase u.path), some Err.transportError, [],
            true, true, env.dstPathExists, false, false, 0⟩)
    ∨ (∃ u, env.parsed = some u ∧ downloadFile env dstDir
        = ⟨goJoin dstDir (goBase u.path), some (Err.badStatus env.statusCode), [],
            true, true, env.dstPathExists, false, false, 0⟩)
    ∨ (∃ u, env.parsed = some u ∧ downloadFile env dstDir
        = ⟨goJoin dstDir (goBase u.path), some Err.createFailed, [],
            true, true, env.dstPathExists, true, false, 0⟩)
    ∨ (∃ u, env.parsed = some u ∧ downloadFile env dstDir = loopOutcome u dstDir env) := by
  cases hp : env.parsed with
  | none =>
      left
      simp [downloadFile, hp]
  | some u =>
      by_cases hs : u.scheme = ""
      · right; left
        exact ⟨u, rfl, by simp [downloadFile, hp, hs]⟩
      · by_cases h1 : (env.dstPathExists && !env.askAnswer) = true
        · right; right; left
          exact ⟨u, rfl, by simp [downloadFile, hp, hs, h1]⟩
        · simp only [Bool.not_eq_true] at h1
          by_cases h2 : (env.dstPathExists && !env.removeOk) = true
          · right; right; right; left
            exact ⟨u, rfl, by simp [downloadFile, hp, hs, h1, h2]⟩
          · simp only [Bool.not_eq_true] at h2
            by_cases h3 : env.httpOk = false
            · right; right; right; right; left
              exact ⟨u, rfl, by simp [downloadFile, hp, hs, h1, h2, h3]⟩
            · simp only [Bool.not_eq_false] at h3
              by_cases h4 : env.statusCode = 200
              · by_cases h5 : env.createOk = false
                · right; right; right; right; right; right; left
                  exact ⟨u, rfl, by simp [downloadFile, hp, hs, h1, h2, h3, h4, h5]⟩
                · simp only [Bool.not_eq_false] at h5
                  right; right; right; right; right; right; right
                  exact ⟨u, rfl, by
                    simp [downloadFile, loopOutcome, hp, hs, h1, h2, h3, h4, h5]⟩
              · right; right; right; right; right; left
                exact ⟨u, rfl, by simp [downloadFile, hp, hs, h1, h2, h3, h4]⟩

/-- The copy loop only ever stops with a read error or a write error. -/
theorem loopErr_cases :
    ∀ reads : List ReadStep, ∀ e, loopErr reads = some e →
      e = Err.readFailed ∨ e = Err.writeFailed := by
  intro reads
  induction reads with
  | nil => intro e h; simp [loopErr] at h
  | cons r rest ih =>
      intro e h
      simp only [loopErr] at h
      by_cases h1 : r.e = ReadErr.other
      · simp [h1] at h
        exact Or.inl h.symm
      · simp only [h1, if_false] at h
        by_cases h2 : 0 < r.n
        · cases hw : r.writeRes with
          | some k =>
              simp [h2, hw] at h
              exact Or.inr h.symm
          | none =>
              by_cases h3 : r.e = ReadErr.eof
              · simp [h2, hw, h3] at h
              · simp only [h2, hw, h3, if_true, if_false] at h
                exact ih e h
        · by_cases h3 : r.e = ReadErr.eof
          · simp [h2, h3] at h
          · simp only [h2, h3, if_false] at h
            exact ih e h

/-- The returned error of the copy-loop branch is the loop's error. -/
theorem loopOutcome_error (u : URL) (dstDir : String) (env : Env) :
    (loopOutcome u dstDir env).error = loopErr env.reads := by
  unfold loopOutcome
  simp only [copyLoop_eq]
  cases h : loopErr env.reads <;> simp [h]

/-- The returned path of the copy-loop branch is the resolved destination
path. -/
theorem loopOutcome_path (u : URL) (dstDir : String) (env : Env) :
    (loopOutcome u dstDir env).path = goJoin dstDir (goBase u.path) := by
  unfold loopOutcome
  simp only [copyLoop_eq]
  cases h : loopErr env.reads <;> simp [h]

/-- The byte count of the copy-loop branch: the processed chunk sizes plus
whatever a failing write wrote. -/
theorem loopOutcome_bytes (u : URL) (dstDir : String) (env : Env) :
    (loopOutcome u dstDir env).fileBytes
      = ((processedChunks env.reads).map Prod.fst).sum + failedWriteBytes env.reads := by
  unfold loopOutcome
  simp only [copyLoop_eq]
  cases h : loopErr env.reads <;> simp [h]

/-- Extracting the `onProgress` tuples from a pure run of `onProgress`
events recovers the mapped states. -/
theorem progressStates_map (f : TState → ProgState) :
    ∀ l : List TState, progressStates (l.map fun s => Ev.progress (f s)) = l.map f := by
  intro l
  induction l with
  | nil => rfl
  | cons a t ih =>
      simp only [progressStates, List.map_cons, List.filterMap_cons] at ih ⊢
      rw [ih]

/-- Extraction of `onProgress` tuples distributes over concatenation. -/
theorem progressStates_append (a b : List Ev) :
    progressStates (a ++ b) = progressStates a ++ progressStates b := by
  simp [progressStates, List.filterMap_append]

/-- The `onProgress` argument tuples of the copy-loop branch are exactly
the states after each processed chunk. -/
theorem progressStates_loopOutcome (u : URL) (dstDir : String) (env : Env) :
    progressStates (loopOutcome u dstDir env).events
      = (runChunks env.contentLength TState.init (processedChunks env.reads)).map
          (mkProg (goBase u.path) env.contentLength) := by
  unfold loopOutcome
  simp only [copyLoop_eq]
  cases h : loopErr env.reads with
  | none =>
      simp only [h, List.append_nil]
      rw [progressStates_append, progressStates_map]
      simp [progressStates]
  | some e =>
      simp only [h]
      rw [progressStates_append, progressStates_map]
      simp [progressStates]

/-- The `bytesRead` values passed to `onProgress` in the copy-loop branch
are the cumulative sums of the processed chunk sizes. -/
theorem progressReads_loopOutcome (u : URL) (dstDir : String) (env : Env) :
    progressReads (loopOutcome u dstDir env).events
      = cumSums 0 ((processedChunks env.reads).map Prod.fst) := by
  unfold progressReads
  rw [progressStates_loopOutcome, List.map_map]
  have hmk : ProgState.bytesRead ∘ mkProg (goBase u.path) env.contentLength
      = TState.bytesRead := rfl
  rw [hmk, runChunks_map_bytesRead]
  rfl

/-- Terminal events of the copy-loop branch when the loop succeeds: a
single `onProgressSuccess` call. -/
theorem terminalEvents_loopOutcome_none (u : URL) (dstDir : String) (env : Env)
    (h : loopErr env.reads = none) :
    terminalEvents (loopOutcome u dstDir env)
      = [Ev.success (mkProg (goJoin dstDir (goBase u.path)) env.contentLength
          ((runChunks env.contentLength TState.init (processedChunks env.reads)).getLastD
            TState.init))] := by
  unfold loopOutcome
  simp only [copyLoop_eq, h]
  simp [terminalEvents, List.filter_append, List.filter_map, Function.comp, Ev.isTerminal]

/-- Terminal events of the copy-loop branch when the loop fails: a single
`onProgressError` call with that error. -/
theorem terminalEvents_loopOutcome_some (u : URL) (dstDir : String) (env : Env) (e : Err)
    (h : loopErr env.reads = some e) :
    terminalEvents (loopOutcome u dstDir env)
      = [Ev.failure (mkProg (goBase u.path) env.contentLength
          ((runChunks env.contentLength TState.init (processedChunks env.reads)).getLastD
            TState.init)) e] := by
  unfold loopOutcome
  simp only [copyLoop_eq, h]
  simp [terminalEvents, List.filter_append, List.filter_map, Function.comp, Ev.isTerminal]

/-- The spec-side progress-state recurrence yields one state per chunk. -/
theorem specStates_length (bt : Int) :
    ∀ (l : List (Nat × Int)) (s : Int), (specStates bt s l).length = l.length := by
  intro l
  induction l with
  | nil => intro s; rfl
  | cons c rest ih =>
      intro s
      simp only [specStates, List.length_cons]
      exact congrArg Nat.succ (ih _)

/-- Any `onProgressSuccess` invocation in the copy-loop branch happens on
the loop's success path, and its argument is the final state under the
destination-path file name. -/
theorem success_mem_loopOutcome (u : URL) (dstDir : String) (env : Env) (s : ProgState)
    (hs : Ev.success s ∈ (loopOutcome u dstDir env).events) :
    loopErr env.reads = none
    ∧ s = mkProg (goJoin dstDir (goBase u.path)) env.contentLength
        ((runChunks env.contentLength TState.init (processedChunks env.reads)).getLastD
          TState.init) := by
  unfold loopOutcome at hs
  simp only [copyLoop_eq] at hs
  cases h : loopErr env.reads with
  | none =>
      rw [h] at hs
      simp only [List.append_nil, List.mem_append, List.mem_map, List.mem_singleton] at hs
      rcases hs with ⟨x, _, hx⟩ | hx
      · cases hx
      · exact ⟨rfl, by injection hx⟩
  | some e =>
      rw [h] at hs
      simp only [List.mem_append, List.mem_map, List.mem_singleton] at hs
      rcases hs with ⟨x, _, hx⟩ | hx
      · cases hx
      · cases hx

/-- C4: for every HTTP response whose status code is not 200 (other 2xx
codes included), `downloadFile` fails with the bad-status error carrying
the code, no callback is invoked, and the destination file is not created:
`os.Create` is not even attempted, because the status is checked before
file creation. -/
theorem C4_bad_status (env : Env) (dstDir : String) (u : URL)
    (hp : env.parsed = some u) (hs : u.scheme ≠ "")
    (hex : env.dstPathExists = false ∨ (env.askAnswer = true ∧ env.removeOk = true))
    (hh : env.httpOk = true) (hst : env.statusCode ≠ 200) :
    downloadFile env dstDir
      = ⟨goJoin dstDir (goBase u.path), some (Err.badStatus env.statusCode), [],
          true, true, env.dstPathExists, false, false, 0⟩ := by
  unfold downloadFile
  rw [hp]
  have hs' : (u.scheme == "") = false := by simp [hs]
  have hex' : (env.dstPathExists && !env.askAnswer) = false := by
    rcases hex with h | ⟨h, _⟩ <;> simp [h]
  have hex2 : (env.dstPathExists && !env.removeOk) = false := by
    rcases hex with h | ⟨_, h⟩ <;> simp [h]
  have hst' : (env.statusCode == 200) = false := by simp [hst]
  simp [hs', hex', hex2, hh, hst']

/-- C4 witness: a 404 response for a fresh destination. -/
theorem C4_bad_status_witness :
    downloadFile notFoundEnv "dl"
      = ⟨goJoin "dl" (goBase "/files/x.bin"), some (Err.badStatus 404), [],
          true, true, false, false, false, 0⟩ :=
  C4_bad_status notFoundEnv "dl" ⟨"https", "/files/x.bin"⟩ rfl (by decide)
    (Or.inl rfl) rfl (by decide)

/-- C7: when the destination exists and the user declines the prompt,
`downloadFile` returns the resolved existing path together with the
cancellation error on the ordinary error return channel, performs no HTTP
request, and attempts no removal, creation or write, so the existing file
is untouched. -/
theorem C7_decline_untouched (env : Env) (dstDir : String) (u : URL)
    (hp : env.parsed = some u) (hs : u.scheme ≠ "")
    (hex : env.dstPathExists = true) (hask : env.askAnswer = false) :
    downloadFile env dstDir
      = ⟨goJoin dstDir (goBase u.path), some Err.downloadCancelled, [],
          false, true, false, false, false, 0⟩ := by
  unfold downloadFile
  rw [hp]
  have hs' : (u.scheme == "") = false := by simp [hs]
  simp [hs', hex, hask]

/-- C7 witness: declining the prompt for an existing destination. -/
theorem C7_decline_untouched_witness :
    downloadFile declinedEnv "d"
      = ⟨goJoin "d" (goBase "/a"), some Err.downloadCancelled, [],
          false, true, false, false, false, 0⟩ :=
  C7_decline_untouched declinedEnv "d" ⟨"https", "/a"⟩ rfl (by decide) rfl rfl

/-- C8: for every source that does not parse or parses with an empty
scheme, `downloadFile` fails with an error of the spec's `InvalidURL` kind
(the source returns the `url.Parse` error itself in the first case and its
dedicated `"not a valid URL"` error in the second) before any network or
filesystem operation: no `http.Get`, no `os.Stat`, no `os.RemoveAll`, no
`os.Create`, no callback, no bytes.  Universality over the rest of the
environment shows no default scheme is inferred: nothing can make such a
run proceed. -/
theorem C8_invalid_url (env : Env) (dstDir : String)
    (h : env.parsed = none ∨ ∃ u, env.parsed = some u ∧ u.scheme = "") :
    (∃ e, (downloadFile env dstDir).error = some e
        ∧ (e = Err.parseError ∨ e = Err.notAValidURL))
    ∧ (downloadFile env dstDir).path = ""
    ∧ (downloadFile env dstDir).httpRequested = false
    ∧ (downloadFile env dstDir).statAttempted = false
    ∧ (downloadFile env dstDir).removeAttempted = false
    ∧ (downloadFile env dstDir).createAttempted = false
    ∧ (downloadFile env dstDir).events = []
    ∧ (downloadFile env dstDir).fileBytes = 0 := by
  rcases h with h | ⟨u, hu, hsch⟩
  · refine ⟨⟨Err.parseError, ?_, Or.inl rfl⟩, ?_, ?_, ?_, ?_, ?_, ?_, ?_⟩ <;>
      simp [downloadFile, h]
  · refine ⟨⟨Err.notAValidURL, ?_, Or.inr rfl⟩, ?_, ?_, ?_, ?_, ?_, ?_, ?_⟩ <;>
      simp [downloadFile, hu, hsch]

/-- C8 witness: an unparseable source string. -/
theorem C8_invalid_url_witness :
    (downloadFile unparseableEnv "d").httpRequested = false
    ∧ (downloadFile unparseableEnv "d").statAttempted = false :=
  ⟨(C8_invalid_url unparseableEnv "d" (Or.inl rfl)).2.2.1,
    (C8_invalid_url unparseableEnv "d" (Or.inl rfl)).2.2.2.1⟩

/-- C5: evaluation of the code at the failing input.  For a source URL
with an empty path basename (`https://example.com/`, so `u.Path = "/"`),
`filepath.Base` yields `"/"` and `filepath.Join` collapses it into the
destination directory itself: with destination directory `/tmp`, the code
resolves the destination path to `/tmp`, calls `os.RemoveAll` on it after
the user confirms (deleting the directory), creates a regular file in its
place, writes the body into it and returns no error — it does not fail
cleanly with a defined error as the claim requires. -/
theorem C5_empty_basename_behavior :
    goBase "/" = "/"
    ∧ goJoin "/tmp" "/" = "/tmp"
    ∧ (downloadFile emptyBaseEnv "/tmp").path = "/tmp"
    ∧ (downloadFile emptyBaseEnv "/tmp").removeAttempted = true
    ∧ (downloadFile emptyBaseEnv "/tmp").fileCreated = true
    ∧ (downloadFile emptyBaseEnv "/tmp").fileBytes = 3
    ∧ (downloadFile emptyBaseEnv "/tmp").error = none := by
  decide

/-- C6: evaluation of the code at the failing inputs.  `progress` is
computed as `float64(bytesRead) / float64(bytesTotal)` with no guard on
`bytesTotal`: a response announcing `Content-Length: 0` whose body yields
a chunk makes the code pass `progress = +Inf` to `onProgress`, and a
chunked response (`ContentLength = -1`) makes it pass a negative
`progress` and a negative `secondsRemaining` — undefined division results
reach the display layer. -/
theorem C6_unguarded_progress :
    (progressStates (downloadFile zeroLengthEnv "d").events).map ProgState.progress
        = [FloatVal.posInf]
    ∧ (progressStates (downloadFile unknownLengthEnv "d").events).map ProgState.progress
        = [FloatVal.finite (-5)]
    ∧ (progressStates (downloadFile unknownLengthEnv "d").events).map
          ProgState.secondsRemaining
        = [FloatVal.finite (-(6 / 5))] := by
  have h1 : progressStates (downloadFile zeroLengthEnv "d").events
      = [mkProg "f.bin" 0 (stepState 0 TState.init 5 0)] := rfl
  have h2 : progressStates (downloadFile unknownLengthEnv "d").events
      = [mkProg "f.bin" (-1) (stepState (-1) TState.init 5 0)] := rfl
  refine ⟨?_, ?_, ?_⟩
  · rw [h1]
    norm_num [mkProg, stepState, fdiv, TState.init]
  · rw [h2]
    norm_num [mkProg, stepState, fdiv, TState.init]
  · rw [h2]
    norm_num [mkProg, stepState, fdiv, TState.init]

/-- C10: when `url.Parse` fails the returned path is `""` (likewise for
the empty-scheme rejection, which the claim counts as parse failure); on
every other failure path — cancellation, removal, transport, bad status,
creation, read and write failures — the returned path is the resolved
destination path `Join(dstDir, Base(u.Path))`. -/
theorem C10_returned_path (env : Env) (dstDir : String) :
    ((downloadFile env dstDir).error = some Err.parseError →
        (downloadFile env dstDir).path = "")
    ∧ ((downloadFile env dstDir).error = some Err.notAValidURL →
        (downloadFile env dstDir).path = "")
    ∧ (∀ e, (downloadFile env dstDir).error = some e →
        e ≠ Err.parseError → e ≠ Err.notAValidURL →
        ∃ u, env.parsed = some u
          ∧ (downloadFile env dstDir).path = goJoin dstDir (goBase u.path)) := by
  rcases downloadFile_cases env dstDir with
    hbr | ⟨u, hu, hbr⟩ | ⟨u, hu, hbr⟩ | ⟨u, hu, hbr⟩ | ⟨u, hu, hbr⟩ | ⟨u, hu, hbr⟩ |
    ⟨u, hu, hbr⟩ | ⟨u, hu, hbr⟩
  · rw [hbr]
    refine ⟨fun _ => rfl, fun _ => rfl, fun e he h1 h2 => ?_⟩
    simp only [Option.some.injEq] at he
    exact absurd he.symm h1
  · rw [hbr]
    refine ⟨fun _ => rfl, fun _ => rfl, fun e he h1 h2 => ?_⟩
    simp only [Option.some.injEq] at he
    exact absurd he.symm h2
  · rw [hbr]
    exact ⟨fun hx => by simp at hx, fun hx => by simp at hx,
      fun e he h1 h2 => ⟨u, hu, rfl⟩⟩
  · rw [hbr]
    exact ⟨fun hx => by simp at hx, fun hx => by simp at hx,
      fun e he h1 h2 => ⟨u, hu, rfl⟩⟩
  · rw [hbr]
    exact ⟨fun hx => by simp at hx, fun hx => by simp at hx,
      fun e he h1 h2 => ⟨u, hu, rfl⟩⟩
  · rw [hbr]
    exact ⟨fun hx => by simp at hx, fun hx => by simp at hx,
      fun e he h1 h2 => ⟨u, hu, rfl⟩⟩
  · rw [hbr]
    exact ⟨fun hx => by simp at hx, fun hx => by simp at hx,
      fun e he h1 h2 => ⟨u, hu, rfl⟩⟩
  · rw [hbr]
    have he' := loopOutcome_error u dstDir env
    have hp' := loopOutcome_path u dstDir env
    refine ⟨fun hx => ?_, fun hx => ?_, fun e he h1 h2 => ⟨u, hu, hp'⟩⟩
    · rw [he'] at hx
      rcases loopErr_cases env.reads Err.parseError hx with h' | h' <;> exact absurd h' (by simp)
    · rw [he'] at hx
      rcases loopErr_cases env.reads Err.notAValidURL hx with h' | h' <;> exact absurd h' (by simp)

/-- C10 witness: the parse-failure case returns the empty path. -/
theorem C10_returned_path_witness :
    (downloadFile unparseableEnv "dir").path = "" :=
  (C10_returned_path unparseableEnv "dir").1 (by decide)

/-- C1 counterexample: a transport-level `http.Get` failure occurs at
step 3 — not at steps 1–2 — yet no terminal callback is invoked and the
driver observes only the returned error, refuting the claim that steps 1–2
are the only such case. -/
theorem C1_counterexample :
    (downloadFile transportFailEnv "d").error = some Err.transportError
    ∧ terminalEvents (downloadFile transportFailEnv "d") = [] := by
  decide

/-- C1 (amended): at most one terminal callback is ever invoked, and it is
invoked exactly once whenever the copy loop is reached — a success
callback when no error is returned, a failure callback carrying the error
when the loop fails on a read or write.  When the flow short-circuits
before the loop (steps 1–4: URL validation, destination
resolution/prompt/removal, HTTP request and status check, file creation),
no terminal callback is invoked and the driver observes only the returned
error. -/
theorem C1_terminal_callbacks (env : Env) (dstDir : String) :
    (terminalEvents (downloadFile env dstDir)).length ≤ 1
    ∧ ((downloadFile env dstDir).error = none →
        ∃ s, terminalEvents (downloadFile env dstDir) = [Ev.success s])
    ∧ ∀ e, (downloadFile env dstDir).error = some e →
        ((e = Err.readFailed ∨ e = Err.writeFailed) →
          ∃ s, terminalEvents (downloadFile env dstDir) = [Ev.failure s e])
        ∧ (e ≠ Err.readFailed → e ≠ Err.writeFailed →
          terminalEvents (downloadFile env dstDir) = []) := by
  rcases downloadFile_cases env dstDir with
    hbr | ⟨u, hu, hbr⟩ | ⟨u, hu, hbr⟩ | ⟨u, hu, hbr⟩ | ⟨u, hu, hbr⟩ | ⟨u, hu, hbr⟩ |
    ⟨u, hu, hbr⟩ | ⟨u, hu, hbr⟩
  case _ | _ | _ | _ | _ | _ | _ =>
    rw [hbr]
    refine ⟨by simp [terminalEvents], fun hx => by simp at hx, fun e he => ?_⟩
    simp only [Option.some.injEq] at he
    subst he
    exact ⟨fun hx => by simp at hx, fun _ _ => by simp [terminalEvents]⟩
  case _ =>
    rw [hbr]
    cases hle : loopErr env.reads with
    | none =>
        have ht := terminalEvents_loopOutcome_none u dstDir env hle
        have he' := loopOutcome_error u dstDir env
        rw [hle] at he'
        refine ⟨by rw [ht]; simp, fun _ => ⟨_, ht⟩, fun e he => ?_⟩
        rw [he'] at he
        exact absurd he (by simp)
    | some e0 =>
        have ht := terminalEvents_loopOutcome_some u dstDir env e0 hle
        have he' := loopOutcome_error u dstDir env
        rw [hle] at he'
        refine ⟨by rw [ht]; simp, fun hx => ?_, fun e he => ?_⟩
        · rw [he'] at hx
          exact absurd hx (by simp)
        · rw [he'] at he
          simp only [Option.some.injEq] at he
          subst he
          have he0 := loopErr_cases env.reads e0 hle
          refine ⟨fun _ => ⟨_, ht⟩, fun h1 h2 => ?_⟩
          rcases he0 with h' | h'
          · exact absurd h' h1
          · exact absurd h' h2

/-- C1 witness: the amended theorem applied to a declined overwrite — a
step-2 short-circuit with no terminal callback. -/
theorem C1_terminal_callbacks_witness :
    terminalEvents (downloadFile declinedEnv "w") = [] :=
  ((C1_terminal_callbacks declinedEnv "w").2.2 Err.downloadCancelled (by decide)).2
    (by decide) (by decide)

/-- C2: on every `onProgress` call, `bytesRead` is non-negative and the
values are non-decreasing across successive calls of one download, and
they stay at most `bytesTotal` whenever `bytesTotal` is known
(non-negative).  The hypothesis models Go's `net/http` guarantee that a
body with a declared `Content-Length` yields at most that many bytes. -/
theorem C2_progress_invariant (env : Env) (dstDir : String)
    (hcl : 0 ≤ env.contentLength → (sumReadSizes env.reads : Int) ≤ env.contentLength) :
    List.Chain' (fun a b => a ≤ b) (progressReads (downloadFile env dstDir).events)
    ∧ ∀ b ∈ progressReads (downloadFile env dstDir).events,
        0 ≤ b ∧ (0 ≤ env.contentLength → b ≤ env.contentLength) := by
  rcases downloadFile_cases env dstDir with
    hbr | ⟨u, hu, hbr⟩ | ⟨u, hu, hbr⟩ | ⟨u, hu, hbr⟩ | ⟨u, hu, hbr⟩ | ⟨u, hu, hbr⟩ |
    ⟨u, hu, hbr⟩ | ⟨u, hu, hbr⟩
  case _ | _ | _ | _ | _ | _ | _ =>
    rw [hbr]
    exact ⟨by simp [progressReads, progressStates], by simp [progressReads, progressStates]⟩
  case _ =>
    rw [hbr, progressReads_loopOutcome]
    constructor
    · exact cumSums_chain _ 0
    · intro b hb
      have hbb := cumSums_mem_bounds _ 0 b hb
      have hle := processedChunks_sum_le env.reads
      refine ⟨hbb.1, fun hcl0 => ?_⟩
      have hcl1 := hcl hcl0
      have hb2 := hbb.2
      simp only [sumReadSizes] at hcl1
      omega

/-- C2 witness: the progress values of a clean two-chunk download are
non-decreasing. -/
theorem C2_progress_invariant_witness :
    List.Chain' (fun a b => a ≤ b) (progressReads (downloadFile twoChunkEnv "d").events) :=
  (C2_progress_invariant twoChunkEnv "d" (by decide)).1

/-- C3 counterexample: a download whose only write fails after 1 of its 2
bytes completes (with a write error): no `onProgress` call was made, so
the delivered total is 0, yet 1 byte was written to the destination file —
the claimed equality fails for this completed-but-failed download. -/
theorem C3_counterexample :
    (downloadFile shortWriteEnv "d").error = some Err.writeFailed
    ∧ deliveredTotal (downloadFile shortWriteEnv "d").events = 0
    ∧ (downloadFile shortWriteEnv "d").fileBytes = 1 := by
  decide

/-- C3 (amended): for every download that completes, the total of the
chunk sizes delivered to `onProgress` equals the number of bytes written
to the destination file — and the `bytesRead` reported to
`onProgressSuccess` also equals it — except when the terminal failure is a
write error whose failing write itself wrote some bytes; in particular the
equality holds for every successful download and whenever failed writes
write nothing. -/
theorem C3_total_bytes (env : Env) (dstDir : String)
    (h : (downloadFile env dstDir).error ≠ some Err.writeFailed
        ∨ ∀ r ∈ env.reads, ∀ k, r.writeRes = some k → k = 0) :
    deliveredTotal (downloadFile env dstDir).events
        = ((downloadFile env dstDir).fileBytes : Int)
    ∧ ∀ s, Ev.success s ∈ (downloadFile env dstDir).events →
        s.bytesRead = ((downloadFile env dstDir).fileBytes : Int) := by
  rcases downloadFile_cases env dstDir with
    hbr | ⟨u, hu, hbr⟩ | ⟨u, hu, hbr⟩ | ⟨u, hu, hbr⟩ | ⟨u, hu, hbr⟩ | ⟨u, hu, hbr⟩ |
    ⟨u, hu, hbr⟩ | ⟨u, hu, hbr⟩
  case _ | _ | _ | _ | _ | _ | _ =>
    rw [hbr]
    exact ⟨by simp [deliveredTotal, progressReads, progressStates],
      fun s hs => by simp at hs⟩
  case _ =>
    rw [hbr] at h ⊢
    have hferr : failedWriteBytes env.reads = 0 := by
      rcases h with h | h
      · rw [loopOutcome_error] at h
        exact failedWriteBytes_eq_zero_of_ne env.reads h
      · exact failedWriteBytes_eq_zero_of_all env.reads h
    constructor
    · rw [loopOutcome_bytes, hferr]
      unfold deliveredTotal
      rw [progressReads_loopOutcome, cumSums_getLastD]
      simp
    · intro s hs
      rcases success_mem_loopOutcome u dstDir env s hs with ⟨hnone, hseq⟩
      subst hseq
      have hb := runChunks_getLastD_bytesRead env.contentLength (processedChunks env.reads)
        TState.init
      have hmk : (mkProg (goJoin dstDir (goBase u.path)) env.contentLength
          ((runChunks env.contentLength TState.init (processedChunks env.reads)).getLastD
            TState.init)).bytesRead
          = ((runChunks env.contentLength TState.init (processedChunks env.reads)).getLastD
            TState.init).bytesRead := rfl
      rw [hmk, hb, loopOutcome_bytes, hferr]
      simp [TState.init]

/-- C3 witness: equality of delivered and written bytes for a clean
download. -/
theorem C3_total_bytes_witness :
    deliveredTotal (downloadFile cleanWritesEnv "d").events
      = ((downloadFile cleanWritesEnv "d").fileBytes : Int) :=
  (C3_total_bytes cleanWritesEnv "d" (Or.inl (by decide))).1

/-- C9: once the copy loop is reached, the `onProgress` tuples are exactly
one per read that yields `n > 0` bytes and is successfully written (no
throttling or sampling), and they follow the spec's recurrence
(`specStates`): cumulative `bytesRead`; `speed` equal to cumulative
`bytesRead` divided by the elapsed whole seconds floored to a minimum
of 1 (a cumulative average); `secondsRemaining` equal to
`(bytesTotal - bytesRead) / speed`. -/
theorem C9_progress_formulas (env : Env) (dstDir : String) (u : URL)
    (hp : env.parsed = some u) (hs : u.scheme ≠ "")
    (hex : env.dstPathExists = false ∨ (env.askAnswer = true ∧ env.removeOk = true))
    (hh : env.httpOk = true) (hst : env.statusCode = 200) (hc : env.createOk = true) :
    progressStates (downloadFile env dstDir).events
        = (specStates env.contentLength 0 (processedChunks env.reads)).map
            (mkProg (goBase u.path) env.contentLength)
    ∧ (progressStates (downloadFile env dstDir).events).length
        = (processedChunks env.reads).length := by
  rw [downloadFile_reaches env dstDir u hp hs hex hh hst hc]
  rw [progressStates_loopOutcome]
  have h1 : runChunks env.contentLength TState.init (processedChunks env.reads)
      = specStates env.contentLength 0 (processedChunks env.reads) := by
    have h2 := runChunks_eq_specStates env.contentLength (processedChunks env.reads)
      TState.init
    simpa [TState.init] using h2
  rw [h1]
  exact ⟨rfl, by rw [List.length_map, specStates_length]⟩


/-- C9 witness: the three-read run satisfies the spec recurrence. -/
theorem C9_progress_formulas_witness :
    progressStates (downloadFile steadyEnv "d").events
      = (specStates (8 : Int) 0 (processedChunks steadyEnv.reads)).map
          (mkProg (goBase "/c.bin") (8 : Int)) :=
  (C9_progress_formulas steadyEnv "d" ⟨"https", "/c.bin"⟩ rfl (by decide)
    (Or.inl rfl) rfl rfl rfl).1

end GGet
